import Mathlib

/-!
Verification of the Subtitle-Processor repository.

This file gives a shallow embedding, in Lean 4, of the pure content-transforming
core of the repository:

- `SubtitleProcessor.create_ass_style_line` (src/subtitle_processor.py),
- `SubtitleProcessor.apply_styling_from_config` (src/subtitle_processor.py),
- `SubtitleProcessor.detect_subtitle_format` (src/subtitle_processor.py),
- `SubtitleProcessor.load_style_config` (src/subtitle_processor.py),
- `VideoProcessorFactory.get_processor` (src/video/video_processor_factory.py).

Modelling conventions.  Python strings are modelled as `List Char`; a document
is the full file content as one character list, split into lines exactly the
way the code splits it (content.split over a newline, which keeps empty
trailing pieces).  A Python style-config dict is modelled by the record
`StyleConfig`: every key the code reads is an optional field whose value is the
string rendering that the Python f-string interpolation would produce; an
absent key is `none`.  File input and output is factored out: each embedded
function takes the content (or, for the loader, the outcome of reading and
parsing the file) as an argument and returns the content that the code writes
back.  Character case functions model Python str.lower and str.upper on the
ASCII range, which is the range the registry keys and extensions use.
-/

/-- Characters of a string literal, the representation used for Python strings. -/
def chars (s : String) : List Char := s.data

/-- Prefix test on character lists, modelling Python str.startswith. -/
def startsWithL : List Char → List Char → Bool
  | [], _ => true
  | _ :: _, [] => false
  | p :: ps, c :: cs => p = c && startsWithL ps cs

/-- Suffix test on character lists, modelling Python str.endswith. -/
def endsWithL (p s : List Char) : Bool := startsWithL p.reverse s.reverse

/-- Substring test, modelling the Python expression p in s. -/
def containsSub (p : List Char) : List Char → Bool
  | [] => startsWithL p []
  | c :: cs => startsWithL p (c :: cs) || containsSub p cs

/-- Python str.strip character class: ASCII whitespace. -/
def isPySpace (c : Char) : Bool :=
  c = ' ' || c = '\t' || c = '\n' || c = '\r' || c = '\x0b' || c = '\x0c'

/-- Both-ends whitespace strip, modelling Python str.strip with no argument. -/
def trimL (s : List Char) : List Char :=
  ((s.dropWhile isPySpace).reverse.dropWhile isPySpace).reverse

/-- Content split at every newline character, modelling content.split over a
newline in Python: the empty content yields one empty piece, and every newline
starts a new piece. -/
def splitLinesL : List Char → List (List Char)
  | [] => [[]]
  | c :: cs =>
    let r := splitLinesL cs
    if c = '\n' then [] :: r
    else (c :: r.headD []) :: r.tail

/-- Newline join, modelling str.join in Python over a newline separator. -/
def joinLinesL : List (List Char) → List Char
  | [] => []
  | [l] => l
  | l :: l2 :: ls => l ++ '\n' :: joinLinesL (l2 :: ls)

/-- Style configuration record: the keys that
`SubtitleProcessor.create_ass_style_line` reads from the style dict.  Each
present value is kept as the character string its f-string interpolation
produces. -/
structure StyleConfig where
  font_name : Option (List Char) := none
  font_size : Option (List Char) := none
  primary_color : Option (List Char) := none
  secondary_color : Option (List Char) := none
  outline_color : Option (List Char) := none
  back_color : Option (List Char) := none
  bold : Option (List Char) := none
  italic : Option (List Char) := none
  outline : Option (List Char) := none
  shadow : Option (List Char) := none
  alignment : Option (List Char) := none
  margin_left : Option (List Char) := none
  margin_right : Option (List Char) := none
  margin_vertical : Option (List Char) := none
deriving DecidableEq

/-- The empty style dict. -/
def emptyStyleConfig : StyleConfig := {}

/-- Value lookup with default, modelling dict.get applied to a key and a
default. -/
def getDef (o : Option (List Char)) (d : List Char) : List Char := o.getD d

namespace SubtitleProcessor

/-- Embedding of `SubtitleProcessor.create_ass_style_line`
(src/subtitle_processor.py, lines 434 to 468): builds the ASS style line by
string concatenation, field by field, with the defaults of the source. -/
def create_ass_style_line (style_config : StyleConfig) (style_name : List Char) :
    List Char :=
  chars "Style: " ++ style_name ++ [','] ++
  getDef style_config.font_name (chars "Arial") ++ [','] ++
  getDef style_config.font_size (chars "20") ++ [','] ++
  getDef style_config.primary_color (chars "&H00FFFFFF") ++ [','] ++
  getDef style_config.secondary_color (chars "&H000000FF") ++ [','] ++
  getDef style_config.outline_color (chars "&H00000000") ++ [','] ++
  getDef style_config.back_color (chars "&H80000000") ++ [','] ++
  getDef style_config.bold (chars "0") ++ [','] ++
  getDef style_config.italic (chars "0") ++ [','] ++
  chars "0,0,100,100,0,0,1," ++
  getDef style_config.outline (chars "2") ++ [','] ++
  getDef style_config.shadow (chars "0") ++ [','] ++
  getDef style_config.alignment (chars "2") ++ [','] ++
  getDef style_config.margin_left (chars "10") ++ [','] ++
  getDef style_config.margin_right (chars "10") ++ [','] ++
  getDef style_config.margin_vertical (chars "10") ++ [','] ++
  chars "1"

end SubtitleProcessor

/-- Specification-side view of the style line, for the refinement claim about
its field structure: the 23 fields, in the documented order, each taken
verbatim from the configuration with the documented default when absent. -/
def styleLineFields (style_config : StyleConfig) (style_name : List Char) :
    List (List Char) :=
  [ style_name,
    getDef style_config.font_name (chars "Arial"),
    getDef style_config.font_size (chars "20"),
    getDef style_config.primary_color (chars "&H00FFFFFF"),
    getDef style_config.secondary_color (chars "&H000000FF"),
    getDef style_config.outline_color (chars "&H00000000"),
    getDef style_config.back_color (chars "&H80000000"),
    getDef style_config.bold (chars "0"),
    getDef style_config.italic (chars "0"),
    chars "0", chars "0", chars "100", chars "100", chars "0", chars "0",
    chars "1",
    getDef style_config.outline (chars "2"),
    getDef style_config.shadow (chars "0"),
    getDef style_config.alignment (chars "2"),
    getDef style_config.margin_left (chars "10"),
    getDef style_config.margin_right (chars "10"),
    getDef style_config.margin_vertical (chars "10"),
    chars "1" ]

/-- Comma join of a field list, the specification-side composition. -/
def commaJoin : List (List Char) → List Char
  | [] => []
  | [f] => f
  | f :: f2 :: fs => f ++ ',' :: commaJoin (f2 :: fs)

/-- C2: the style line built from the empty style config under the name
Default is exactly the documented default line. -/
theorem c2_default_style_line :
    SubtitleProcessor.create_ass_style_line emptyStyleConfig (chars "Default") =
      chars "Style: Default,Arial,20,&H00FFFFFF,&H000000FF,&H00000000,&H80000000,0,0,0,0,100,100,0,0,1,2,0,2,10,10,10,1" := by
  decide

/-- C4: for every style configuration and every style name, the synthesized
line is the prefix Style-colon-space followed by the comma join of exactly 23
fields in the documented order, each field taken verbatim from the
configuration with the documented default when the key is absent, with no
validation applied to any value. -/
theorem c4_style_line_fields (style_config : StyleConfig) (style_name : List Char) :
    SubtitleProcessor.create_ass_style_line style_config style_name =
      chars "Style: " ++ commaJoin (styleLineFields style_config style_name) ∧
    (styleLineFields style_config style_name).length = 23 := by
  constructor
  · simp [SubtitleProcessor.create_ass_style_line, styleLineFields, commaJoin,
      chars, List.append_assoc]
  · rfl

/-- The section header the code compares against. -/
def v4HeaderStr : List Char := chars "[V4+ Styles]"

/-- Line class test for the section header: the stripped line equals the
header string. -/
def isV4HeaderLine (l : List Char) : Bool := trimL l = v4HeaderStr

/-- Line class test for a section-exit line: starts with an opening bracket,
ends with a closing bracket, and is not the V4 header itself. -/
def isExitLine (l : List Char) : Bool :=
  startsWithL (chars "[") l && endsWithL (chars "]") l && !(isV4HeaderLine l)

/-- Line class test for a Format line. -/
def isFormatLine (l : List Char) : Bool := startsWithL (chars "Format:") l

/-- Line class test for a Style line. -/
def isStyleLine (l : List Char) : Bool := startsWithL (chars "Style:") l

/-- Line class test for a line containing the substring Default. -/
def hasDefaultSub (l : List Char) : Bool := containsSub (chars "Default") l

/-- Parser state of `apply_styling_from_config`: the three booleans the loop
threads while scanning the document. -/
structure LoopState where
  inV4 : Bool
  fmtFound : Bool
  replaced : Bool
deriving DecidableEq

/-- Initial parser state. -/
def initState : LoopState := ⟨false, false, false⟩

namespace SubtitleProcessor

/-- One iteration of the scanning loop of `apply_styling_from_config`
(src/subtitle_processor.py, lines 552 to 574): classify the line, update the
three state booleans as the code does, and emit the lines appended to
new_lines by this iteration. -/
def stepLine (cfg : StyleConfig) (st : LoopState) (l : List Char) :
    LoopState × List (List Char) :=
  if isV4HeaderLine l then ({ st with inV4 := true }, [l])
  else
    let st1 := if isExitLine l then { st with inV4 := false } else st
    if st1.inV4 then
      if isFormatLine l then ({ st1 with fmtFound := true }, [l])
      else if isStyleLine l && hasDefaultSub l && !st1.replaced then
        ({ st1 with replaced := true }, [create_ass_style_line cfg (chars "Default")])
      else if isStyleLine l then (st1, [l])
      else (st1, [l])
    else (st1, [l])

/-- The whole scanning loop: thread the state over the lines and concatenate
the emitted output. -/
def processLoop (cfg : StyleConfig) (st : LoopState) :
    List (List Char) → LoopState × List (List Char)
  | [] => (st, [])
  | l :: ls =>
    let p := stepLine cfg st l
    let q := processLoop cfg p.1 ls
    (q.1, p.2 ++ q.2)

/-- The fallback insertion pass of `apply_styling_from_config`
(src/subtitle_processor.py, lines 576 to 591): walk the produced lines with a
flag recording whether a V4 header line has occurred strictly earlier, and
insert the new style line right after the first Format line reached with the
flag set.  The flag models the backward walk of the source, which succeeds
exactly when a header line precedes the Format line. -/
def insertAfterFmt (s : List Char) (seen : Bool) : List (List Char) → List (List Char)
  | [] => []
  | l :: ls =>
    if seen && isFormatLine l then l :: s :: ls
    else l :: insertAfterFmt s (seen || isV4HeaderLine l) ls

/-- Line-level behaviour of `apply_styling_from_config`
(src/subtitle_processor.py, lines 543 to 595): scan, then, when no Default
style was replaced but a Format line was found inside the section, run the
insertion pass. -/
def apply_styling_lines (cfg : StyleConfig) (ls : List (List Char)) :
    List (List Char) :=
  let p := processLoop cfg initState ls
  if !p.1.replaced && p.1.fmtFound then
    insertAfterFmt (create_ass_style_line cfg (chars "Default")) false p.2
  else p.2

/-- Content-level behaviour of `apply_styling_from_config`
(src/subtitle_processor.py, lines 529 to 602): the content written back to the
file is the newline join of the processed lines of the newline split of the
content read.  The surrounding file input and output is factored out of the
embedding. -/
def apply_styling_from_config (cfg : StyleConfig) (content : List Char) :
    List Char :=
  joinLinesL (apply_styling_lines cfg (splitLinesL content))

end SubtitleProcessor

/-- Unfolding equation of the loop on a cons cell. -/
theorem processLoop_cons (cfg : StyleConfig) (st : LoopState) (l : List Char)
    (ls : List (List Char)) :
    SubtitleProcessor.processLoop cfg st (l :: ls) =
      ((SubtitleProcessor.processLoop cfg (SubtitleProcessor.stepLine cfg st l).1 ls).1,
       (SubtitleProcessor.stepLine cfg st l).2 ++
         (SubtitleProcessor.processLoop cfg (SubtitleProcessor.stepLine cfg st l).1 ls).2) :=
  rfl

/-- The loop splits over list append. -/
theorem processLoop_append (cfg : StyleConfig) (st : LoopState)
    (xs ys : List (List Char)) :
    SubtitleProcessor.processLoop cfg st (xs ++ ys) =
      ((SubtitleProcessor.processLoop cfg (SubtitleProcessor.processLoop cfg st xs).1 ys).1,
       (SubtitleProcessor.processLoop cfg st xs).2 ++
         (SubtitleProcessor.processLoop cfg (SubtitleProcessor.processLoop cfg st xs).1 ys).2) := by
  induction xs generalizing st with
  | nil => simp [SubtitleProcessor.processLoop]
  | cons a as ih => simp [processLoop_cons, ih, List.append_assoc]

/-- A step taken with the replaced flag already set passes the line through
verbatim and keeps the flag. -/
theorem stepLine_replaced (cfg : StyleConfig) (st : LoopState) (l : List Char)
    (h : st.replaced = true) :
    (SubtitleProcessor.stepLine cfg st l).2 = [l] ∧
      (SubtitleProcessor.stepLine cfg st l).1.replaced = true := by
  simp only [SubtitleProcessor.stepLine]
  split_ifs <;> simp_all

/-- Once the replaced flag is set, the rest of the loop passes every line
through verbatim and the flag stays set. -/
theorem processLoop_replaced (cfg : StyleConfig) (st : LoopState)
    (ls : List (List Char)) (h : st.replaced = true) :
    (SubtitleProcessor.processLoop cfg st ls).2 = ls ∧
      (SubtitleProcessor.processLoop cfg st ls).1.replaced = true := by
  induction ls generalizing st with
  | nil => simpa [SubtitleProcessor.processLoop]
  | cons a as ih =>
    have hs := stepLine_replaced cfg st a h
    have ht := ih (SubtitleProcessor.stepLine cfg st a).1 hs.2
    simp [processLoop_cons, hs.1, ht.1, ht.2]

/-- The replaced flag never goes from set to clear in one step. -/
theorem stepLine_replaced_mono (cfg : StyleConfig) (st : LoopState) (l : List Char)
    (h : (SubtitleProcessor.stepLine cfg st l).1.replaced = false) :
    st.replaced = false := by
  by_contra hc
  have hb : st.replaced = true := by revert hc; cases st.replaced <;> simp
  have ht := (stepLine_replaced cfg st l hb).2
  simp [ht] at h

/-- The replaced flag never goes from set to clear over the loop. -/
theorem processLoop_replaced_mono (cfg : StyleConfig) (st : LoopState)
    (ls : List (List Char))
    (h : (SubtitleProcessor.processLoop cfg st ls).1.replaced = false) :
    st.replaced = false := by
  by_contra hc
  have hb : st.replaced = true := by revert hc; cases st.replaced <;> simp
  have ht := (processLoop_replaced cfg st ls hb).2
  simp [ht] at h

/-- Dropping a prefix by a predicate keeps a final element the predicate
rejects. -/
theorem dropWhile_append_last (p : Char → Bool) (xs : List Char) (c : Char)
    (hc : p c = false) :
    ∃ ys, List.dropWhile p (xs ++ [c]) = ys ++ [c] := by
  induction xs with
  | nil => exact ⟨[], by simp [List.dropWhile, hc]⟩
  | cons a as ih =>
    by_cases h : p a = true
    · simpa [List.dropWhile_cons, h] using ih
    · exact ⟨a :: as, by simp [List.dropWhile_cons, h]⟩

/-- Stripping a line that starts with a non-space character keeps that first
character. -/
theorem trimL_cons_head (c : Char) (s : List Char) (hc : isPySpace c = false) :
    ∃ t, trimL (c :: s) = c :: t := by
  unfold trimL
  rw [List.dropWhile_cons]
  simp only [hc, Bool.false_eq_true, if_false]
  have h1 : (c :: s).reverse = s.reverse ++ [c] := by simp
  rw [h1]
  obtain ⟨ys, hy⟩ := dropWhile_append_last isPySpace s.reverse c hc
  rw [hy]
  exact ⟨ys.reverse, by simp⟩

/-- A successful prefix test against a cons pattern determines the head. -/
theorem startsWithL_cons_ex {p : Char} {ps l : List Char}
    (h : startsWithL (p :: ps) l = true) :
    ∃ cs, l = p :: cs ∧ startsWithL ps cs = true := by
  cases l with
  | nil => simp [startsWithL] at h
  | cons c cs =>
    simp only [startsWithL, Bool.and_eq_true, decide_eq_true_eq] at h
    exact ⟨cs, by rw [h.1], h.2⟩

/-- Every list passes the prefix test against itself followed by anything. -/
theorem startsWithL_append_self (p t : List Char) :
    startsWithL p (p ++ t) = true := by
  induction p with
  | nil => simp [startsWithL]
  | cons a as ih => simp [startsWithL, ih]

/-- A prefix is a substring. -/
theorem containsSub_of_startsWithL {p s : List Char}
    (h : startsWithL p s = true) : containsSub p s = true := by
  cases s with
  | nil => simpa [containsSub] using h
  | cons c cs => simp [containsSub, h]

/-- Substring occurrence is stable under extending the list on the left. -/
theorem containsSub_append_left (p a s : List Char)
    (h : containsSub p s = true) : containsSub p (a ++ s) = true := by
  induction a with
  | nil => simpa
  | cons c cs ih => simp [containsSub, ih]

/-- A line whose first character is neither whitespace nor an opening bracket
is not the section header. -/
theorem isV4HeaderLine_false_of_head (c : Char) (s : List Char)
    (hsp : isPySpace c = false) (hbr : c ≠ '[') :
    isV4HeaderLine (c :: s) = false := by
  obtain ⟨t, ht⟩ := trimL_cons_head c s hsp
  have hv : v4HeaderStr = '[' :: chars "V4+ Styles]" := rfl
  simp only [isV4HeaderLine, ht, hv]
  rw [decide_eq_false_iff_not]
  intro hx
  injection hx with h1 h2
  exact hbr h1

/-- A Style line is neither the section header nor a section-exit line nor a
Format line. -/
theorem isStyleLine_classes {l : List Char} (h : isStyleLine l = true) :
    isV4HeaderLine l = false ∧ isExitLine l = false ∧ isFormatLine l = false := by
  have hc : chars "Style:" = 'S' :: chars "tyle:" := rfl
  rw [isStyleLine, hc] at h
  obtain ⟨cs, rfl, -⟩ := startsWithL_cons_ex h
  have h1 : isV4HeaderLine ('S' :: cs) = false :=
    isV4HeaderLine_false_of_head 'S' cs (by decide) (by decide)
  have h2 : startsWithL (chars "[") ('S' :: cs) = false := by
    have : ('[' : Char) ≠ 'S' := by decide
    simp [chars, startsWithL, this]
  have h3 : isFormatLine ('S' :: cs) = false := by
    have : ('F' : Char) ≠ 'S' := by decide
    have hf : chars "Format:" = 'F' :: chars "ormat:" := rfl
    simp [isFormatLine, hf, startsWithL, this]
  exact ⟨h1, by simp [isExitLine, h2], h3⟩

/-- A Format line is neither the section header nor a section-exit line. -/
theorem isFormatLine_classes {l : List Char} (h : isFormatLine l = true) :
    isV4HeaderLine l = false ∧ isExitLine l = false := by
  have hc : chars "Format:" = 'F' :: chars "ormat:" := rfl
  rw [isFormatLine, hc] at h
  obtain ⟨cs, rfl, -⟩ := startsWithL_cons_ex h
  have h1 : isV4HeaderLine ('F' :: cs) = false :=
    isV4HeaderLine_false_of_head 'F' cs (by decide) (by decide)
  have h2 : startsWithL (chars "[") ('F' :: cs) = false := by
    have : ('[' : Char) ≠ 'F' := by decide
    simp [chars, startsWithL, this]
  exact ⟨h1, by simp [isExitLine, h2]⟩

/-- The synthesized Default line is a Style line. -/
theorem synthesized_isStyle (cfg : StyleConfig) :
    isStyleLine (SubtitleProcessor.create_ass_style_line cfg (chars "Default")) = true := by
  have hd : SubtitleProcessor.create_ass_style_line cfg (chars "Default") =
      chars "Style:" ++ (chars " Default" ++ [','] ++
        getDef cfg.font_name (chars "Arial") ++ [','] ++
        getDef cfg.font_size (chars "20") ++ [','] ++
        getDef cfg.primary_color (chars "&H00FFFFFF") ++ [','] ++
        getDef cfg.secondary_color (chars "&H000000FF") ++ [','] ++
        getDef cfg.outline_color (chars "&H00000000") ++ [','] ++
        getDef cfg.back_color (chars "&H80000000") ++ [','] ++
        getDef cfg.bold (chars "0") ++ [','] ++
        getDef cfg.italic (chars "0") ++ [','] ++
        chars "0,0,100,100,0,0,1," ++
        getDef cfg.outline (chars "2") ++ [','] ++
        getDef cfg.shadow (chars "0") ++ [','] ++
        getDef cfg.alignment (chars "2") ++ [','] ++
        getDef cfg.margin_left (chars "10") ++ [','] ++
        getDef cfg.margin_right (chars "10") ++ [','] ++
        getDef cfg.margin_vertical (chars "10") ++ [','] ++
        chars "1") := by
    simp [SubtitleProcessor.create_ass_style_line, chars, List.append_assoc]
  rw [isStyleLine, hd]
  exact startsWithL_append_self (chars "Style:") _

/-- The synthesized Default line contains the substring Default. -/
theorem synthesized_hasDefault (cfg : StyleConfig) :
    hasDefaultSub (SubtitleProcessor.create_ass_style_line cfg (chars "Default")) = true := by
  have hd : SubtitleProcessor.create_ass_style_line cfg (chars "Default") =
      chars "Style: " ++ (chars "Default" ++ ([','] ++
        getDef cfg.font_name (chars "Arial") ++ [','] ++
        getDef cfg.font_size (chars "20") ++ [','] ++
        getDef cfg.primary_color (chars "&H00FFFFFF") ++ [','] ++
        getDef cfg.secondary_color (chars "&H000000FF") ++ [','] ++
        getDef cfg.outline_color (chars "&H00000000") ++ [','] ++
        getDef cfg.back_color (chars "&H80000000") ++ [','] ++
        getDef cfg.bold (chars "0") ++ [','] ++
        getDef cfg.italic (chars "0") ++ [','] ++
        chars "0,0,100,100,0,0,1," ++
        getDef cfg.outline (chars "2") ++ [','] ++
        getDef cfg.shadow (chars "0") ++ [','] ++
        getDef cfg.alignment (chars "2") ++ [','] ++
        getDef cfg.margin_left (chars "10") ++ [','] ++
        getDef cfg.margin_right (chars "10") ++ [','] ++
        getDef cfg.margin_vertical (chars "10") ++ [','] ++
        chars "1")) := by
    simp [SubtitleProcessor.create_ass_style_line, chars, List.append_assoc]
  rw [hasDefaultSub, hd]
  exact containsSub_append_left _ _ _
    (containsSub_of_startsWithL (startsWithL_append_self (chars "Default") _))

/-- The replacing step: inside the section with the replaced flag clear, a
Style line containing the substring Default is replaced by the synthesized
Default line and the flag is set. -/
theorem stepLine_match (cfg : StyleConfig) (st : LoopState) (l : List Char)
    (hV4 : st.inV4 = true) (hR : st.replaced = false)
    (hS : isStyleLine l = true) (hD : hasDefaultSub l = true) :
    SubtitleProcessor.stepLine cfg st l =
      ({ st with replaced := true },
       [SubtitleProcessor.create_ass_style_line cfg (chars "Default")]) := by
  obtain ⟨h1, h2, h3⟩ := isStyleLine_classes hS
  simp [SubtitleProcessor.stepLine, h1, h2, h3, hV4, hR, hS, hD]

/-- The Format step: inside the section, a Format line is passed through and
the found flag is set. -/
theorem stepLine_fmt (cfg : StyleConfig) (st : LoopState) (l : List Char)
    (hV4 : st.inV4 = true) (hF : isFormatLine l = true) :
    SubtitleProcessor.stepLine cfg st l = ({ st with fmtFound := true }, [l]) := by
  obtain ⟨h1, h2⟩ := isFormatLine_classes hF
  simp [SubtitleProcessor.stepLine, h1, h2, hV4, hF]

/-- Specification-side reading of the name field of a Style line: the text
after the Style marker up to the first comma, with surrounding whitespace
stripped. -/
def styleNameField (l : List Char) : List Char :=
  trimL (List.takeWhile (fun c => c ≠ ',') (l.drop 6))

/-- C1 counterexample: the code keys the replacement on the substring Default
occurring anywhere in the Style line, not on the name field.  In this document
the first Style line has name field Title and the second has name field
Default; the claim says the second is replaced and the first passes through,
but the code replaces the first and passes the second through. -/
theorem c1_counterexample :
    styleNameField (chars "Style: Title,Default,x") ≠ chars "Default" ∧
    styleNameField (chars "Style: Default,Arial") = chars "Default" ∧
    SubtitleProcessor.apply_styling_from_config emptyStyleConfig
        (chars "[V4+ Styles]\nStyle: Title,Default,x\nStyle: Default,Arial") =
      chars "[V4+ Styles]\nStyle: Default,Arial,20,&H00FFFFFF,&H000000FF,&H00000000,&H80000000,0,0,0,0,100,100,0,0,1,2,0,2,10,10,10,1\nStyle: Default,Arial" ∧
    SubtitleProcessor.apply_styling_from_config emptyStyleConfig
        (chars "[V4+ Styles]\nStyle: Title,Default,x\nStyle: Default,Arial") ≠
      chars "[V4+ Styles]\nStyle: Title,Default,x\nStyle: Default,Arial,20,&H00FFFFFF,&H000000FF,&H00000000,&H80000000,0,0,0,0,100,100,0,0,1,2,0,2,10,10,10,1" := by
  refine ⟨by decide, by decide, by decide, by decide⟩

/-- Shared shape of a run that performs a replacement: after a prefix that
leaves the scan inside the section with the replaced flag clear, a Style line
containing the substring Default is replaced by the synthesized Default line
and everything after it passes through; no insertion follows. -/
theorem replaceShape (cfg : StyleConfig)
    (u v : List (List Char)) (l : List Char)
    (hV4 : (SubtitleProcessor.processLoop cfg initState u).1.inV4 = true)
    (hR : (SubtitleProcessor.processLoop cfg initState u).1.replaced = false)
    (hS : isStyleLine l = true) (hD : hasDefaultSub l = true) :
    SubtitleProcessor.apply_styling_lines cfg (u ++ l :: v) =
      (SubtitleProcessor.processLoop cfg initState u).2 ++
        SubtitleProcessor.create_ass_style_line cfg (chars "Default") :: v := by
  unfold SubtitleProcessor.apply_styling_lines
  rw [processLoop_append cfg initState u (l :: v), processLoop_cons,
    stepLine_match cfg _ l hV4 hR hS hD]
  have hrep :
      ({ (SubtitleProcessor.processLoop cfg initState u).1 with replaced := true } :
        LoopState).replaced = true := rfl
  have hrest := processLoop_replaced cfg _ v hrep
  simp [hrest.1, hrest.2]

/-- C1 (amended): inside the V4 styles section, with no replacement done yet,
the first Style line that contains the substring Default anywhere in the line
is replaced by the synthesized Default style line, and every following line of
the document, in particular every further Style line containing Default, is
passed through unchanged. -/
theorem c1_replaces_first_default_substring_line (cfg : StyleConfig)
    (u v : List (List Char)) (l : List Char)
    (hV4 : (SubtitleProcessor.processLoop cfg initState u).1.inV4 = true)
    (hR : (SubtitleProcessor.processLoop cfg initState u).1.replaced = false)
    (hS : isStyleLine l = true) (hD : hasDefaultSub l = true) :
    SubtitleProcessor.apply_styling_lines cfg (u ++ l :: v) =
      (SubtitleProcessor.processLoop cfg initState u).2 ++
        SubtitleProcessor.create_ass_style_line cfg (chars "Default") :: v :=
  replaceShape cfg u v l hV4 hR hS hD

/-- C1 witness: the amended theorem applied to a concrete document in which a
second Default style line follows the replaced one. -/
theorem c1_witness :
    (SubtitleProcessor.processLoop emptyStyleConfig initState [chars "[V4+ Styles]"]).1.inV4 = true ∧
    (SubtitleProcessor.processLoop emptyStyleConfig initState [chars "[V4+ Styles]"]).1.replaced = false ∧
    isStyleLine (chars "Style: Default,x") = true ∧
    hasDefaultSub (chars "Style: Default,x") = true ∧
    SubtitleProcessor.apply_styling_lines emptyStyleConfig
        ([chars "[V4+ Styles]"] ++ (chars "Style: Default,x") :: [chars "Style: Default,y"]) =
      (SubtitleProcessor.processLoop emptyStyleConfig initState [chars "[V4+ Styles]"]).2 ++
        SubtitleProcessor.create_ass_style_line emptyStyleConfig (chars "Default") ::
          [chars "Style: Default,y"] :=
  ⟨by decide, by decide, by decide, by decide,
    c1_replaces_first_default_substring_line emptyStyleConfig
      [chars "[V4+ Styles]"] [chars "Style: Default,y"] (chars "Style: Default,x")
      (by decide) (by decide) (by decide) (by decide)⟩

/-- The split of any content is nonempty. -/
theorem splitLinesL_ne_nil (s : List Char) : splitLinesL s ≠ [] := by
  cases s with
  | nil => simp [splitLinesL]
  | cons c cs => by_cases h : c = '\n' <;> simp [splitLinesL, h]

/-- Unfolding of the join on a cons cell with nonempty tail. -/
theorem joinLinesL_cons (l : List Char) (ls : List (List Char)) (h : ls ≠ []) :
    joinLinesL (l :: ls) = l ++ '\n' :: joinLinesL ls := by
  cases ls with
  | nil => exact absurd rfl h
  | cons a as => rfl

/-- Joining the newline split of a content restores the content. -/
theorem join_split (s : List Char) : joinLinesL (splitLinesL s) = s := by
  induction s with
  | nil => rfl
  | cons c cs ih =>
    have hne := splitLinesL_ne_nil cs
    by_cases h : c = '\n'
    · subst h
      rw [show splitLinesL ('\n' :: cs) = [] :: splitLinesL cs from by simp [splitLinesL]]
      rw [joinLinesL_cons _ _ hne, ih]
      rfl
    · rw [show splitLinesL (c :: cs) =
          (c :: (splitLinesL cs).headD []) :: (splitLinesL cs).tail from by
        simp [splitLinesL, h]]
      cases hr : splitLinesL cs with
      | nil => exact absurd hr hne
      | cons a as =>
        rw [hr] at ih
        simp only [List.headD_cons, List.tail_cons]
        cases as with
        | nil =>
          have : joinLinesL [a] = a := rfl
          rw [this] at ih
          simp [joinLinesL, ih]
        | cons b bs =>
          have hgoal : joinLinesL ((c :: a) :: b :: bs) =
              c :: (a ++ '\n' :: joinLinesL (b :: bs)) := rfl
          rw [hgoal, ← joinLinesL_cons a (b :: bs) (by simp), ih]

/-- State eta when the inV4 flag is already clear. -/
theorem loopState_eta_inV4 (st : LoopState) (h : st.inV4 = false) :
    ({ st with inV4 := false } : LoopState) = st := by
  cases st
  simp_all

/-- A step on a line that is neither the header nor an exit line leaves the
inV4 flag as it was and emits exactly one line. -/
theorem stepLine_one_out (cfg : StyleConfig) (st : LoopState) (l : List Char)
    (h1 : isV4HeaderLine l = false) (h2 : isExitLine l = false) :
    (SubtitleProcessor.stepLine cfg st l).1.inV4 = st.inV4 ∧
      ∃ x, (SubtitleProcessor.stepLine cfg st l).2 = [x] := by
  simp only [SubtitleProcessor.stepLine, h1, h2]
  split_ifs <;> simp_all

/-- A step outside the section on a line that is neither the header nor an
exit line passes the line through with the state untouched. -/
theorem stepLine_outside (cfg : StyleConfig) (st : LoopState) (l : List Char)
    (h1 : isV4HeaderLine l = false) (h2 : isExitLine l = false)
    (h3 : st.inV4 = false) :
    SubtitleProcessor.stepLine cfg st l = (st, [l]) := by
  simp [SubtitleProcessor.stepLine, h1, h2, h3]

/-- Scanning a document that contains no header line, starting outside the
section, changes nothing: state and lines are returned as they are. -/
theorem processLoop_no_header (cfg : StyleConfig) (st : LoopState)
    (ls : List (List Char)) (h3 : st.inV4 = false)
    (hall : ∀ l ∈ ls, isV4HeaderLine l = false) :
    SubtitleProcessor.processLoop cfg st ls = (st, ls) := by
  induction ls generalizing st with
  | nil => rfl
  | cons l ls ih =>
    have h1 := hall l (by simp)
    by_cases h2 : isExitLine l = true
    · have hstep : SubtitleProcessor.stepLine cfg st l = (st, [l]) := by
        simp only [SubtitleProcessor.stepLine, h1, h2]
        rw [loopState_eta_inV4 st h3]
        simp [h3]
      rw [processLoop_cons, hstep, ih st h3 (fun x hx => hall x (by simp [hx]))]
      rfl
    · have hstep := stepLine_outside cfg st l h1 (by revert h2; cases isExitLine l <;> simp) h3
      rw [processLoop_cons, hstep, ih st h3 (fun x hx => hall x (by simp [hx]))]
      rfl

/-- Specification-side collection of the document lines that lie outside the
V4 styles section, tracked with the same header and exit line classification
the code uses.  The header line itself is not collected; an exit line and
everything after it up to the next header is. -/
def outsideLines (b : Bool) : List (List Char) → List (List Char)
  | [] => []
  | l :: ls =>
    if isV4HeaderLine l then outsideLines true ls
    else if isExitLine l then l :: outsideLines false ls
    else if b then outsideLines b ls
    else l :: outsideLines b ls

/-- The lines outside the section form a sublist of the scan output. -/
theorem outside_sublist (cfg : StyleConfig) (st : LoopState)
    (ls : List (List Char)) :
    List.Sublist (outsideLines st.inV4 ls)
      (SubtitleProcessor.processLoop cfg st ls).2 := by
  induction ls generalizing st with
  | nil => simp [SubtitleProcessor.processLoop, outsideLines]
  | cons l ls ih =>
    rw [processLoop_cons]
    by_cases h1 : isV4HeaderLine l = true
    · have hstep : SubtitleProcessor.stepLine cfg st l = ({ st with inV4 := true }, [l]) := by
        simp [SubtitleProcessor.stepLine, h1]
      rw [hstep]
      simp only [outsideLines, h1, if_true]
      exact List.Sublist.cons _ (ih { st with inV4 := true })
    · by_cases h2 : isExitLine l = true
      · have hstep : SubtitleProcessor.stepLine cfg st l =
            ({ st with inV4 := false }, [l]) := by
          simp [SubtitleProcessor.stepLine, h1, h2]
        rw [hstep]
        simp only [outsideLines, h1, h2, if_false, if_true]
        exact List.Sublist.cons₂ _ (ih { st with inV4 := false })
      · have h1f : isV4HeaderLine l = false := by revert h1; cases isV4HeaderLine l <;> simp
        have h2f : isExitLine l = false := by revert h2; cases isExitLine l <;> simp
        obtain ⟨hinv, x, hx⟩ := stepLine_one_out cfg st l h1f h2f
        by_cases h3 : st.inV4 = true
        · rw [hx]
          simp only [outsideLines, h1f, h2f, if_false, h3, if_true, Bool.false_eq_true]
          have hh := ih (SubtitleProcessor.stepLine cfg st l).1
          rw [hinv, h3] at hh
          exact List.Sublist.cons _ hh
        · have h3f : st.inV4 = false := by revert h3; cases st.inV4 <;> simp
          rw [stepLine_outside cfg st l h1f h2f h3f]
          simp only [outsideLines, h1f, h2f, if_false, h3f, Bool.false_eq_true,
            List.nil_append]
          have hh := ih st
          rw [h3f] at hh
          simpa using List.Sublist.cons₂ l hh

/-- The insertion pass only ever adds a line: the input is a sublist of its
output. -/
theorem sublist_insertAfterFmt (s : List Char) (seen : Bool)
    (ls : List (List Char)) :
    List.Sublist ls (SubtitleProcessor.insertAfterFmt s seen ls) := by
  induction ls generalizing seen with
  | nil => simp [SubtitleProcessor.insertAfterFmt]
  | cons l ls ih =>
    simp only [SubtitleProcessor.insertAfterFmt]
    by_cases h : (seen && isFormatLine l) = true
    · simp only [h, if_true]
      exact List.Sublist.cons₂ _ (List.Sublist.cons _ (List.Sublist.refl _))
    · simp only [h, if_false]
      exact List.Sublist.cons₂ _ (ih _)

/-- C3: lines outside the V4 styles section pass through byte-identical.
First part: for every style config and every parsed document, the lines
processed outside the section form a sublist of the output lines, unchanged
and in order.  Second part: a document without any section header line is
returned entirely unchanged. -/
theorem c3_outside_lines_pass_through :
    (∀ (cfg : StyleConfig) (ls : List (List Char)),
        List.Sublist (outsideLines false ls)
          (SubtitleProcessor.apply_styling_lines cfg ls)) ∧
    (∀ (cfg : StyleConfig) (content : List Char),
        (∀ l ∈ splitLinesL content, isV4HeaderLine l = false) →
          SubtitleProcessor.apply_styling_from_config cfg content = content) := by
  constructor
  · intro cfg ls
    have h0 := outside_sublist cfg initState ls
    rw [show initState.inV4 = false from rfl] at h0
    simp only [SubtitleProcessor.apply_styling_lines]
    split
    · exact h0.trans (sublist_insertAfterFmt _ _ _)
    · exact h0
  · intro cfg content hall
    have hpl := processLoop_no_header cfg initState (splitLinesL content) rfl hall
    simp only [SubtitleProcessor.apply_styling_from_config,
      SubtitleProcessor.apply_styling_lines, hpl]
    simp only [show initState.fmtFound = false from rfl, Bool.and_false, if_false]
    exact join_split content

/-- C3 witness: a concrete document with Script Info and Events sections but
no V4 styles section passes through unchanged. -/
theorem c3_witness :
    (∀ l ∈ splitLinesL (chars "[Script Info]\nTitle: x\n\n[Events]\nDialogue: a,b"),
        isV4HeaderLine l = false) ∧
    SubtitleProcessor.apply_styling_from_config emptyStyleConfig
        (chars "[Script Info]\nTitle: x\n\n[Events]\nDialogue: a,b") =
      chars "[Script Info]\nTitle: x\n\n[Events]\nDialogue: a,b" :=
  ⟨by decide, c3_outside_lines_pass_through.2 emptyStyleConfig
    (chars "[Script Info]\nTitle: x\n\n[Events]\nDialogue: a,b") (by decide)⟩

/-- Every step emits exactly one line. -/
theorem stepLine_out_length (cfg : StyleConfig) (st : LoopState) (l : List Char) :
    (SubtitleProcessor.stepLine cfg st l).2.length = 1 := by
  simp only [SubtitleProcessor.stepLine]
  split_ifs <;> simp

/-- The scan preserves the number of lines. -/
theorem processLoop_out_length (cfg : StyleConfig) (st : LoopState)
    (ls : List (List Char)) :
    (SubtitleProcessor.processLoop cfg st ls).2.length = ls.length := by
  induction ls generalizing st with
  | nil => rfl
  | cons l ls ih =>
    rw [processLoop_cons]
    simp [stepLine_out_length, ih, Nat.add_comm]

/-- The insertion pass keeps the number of lines or adds exactly one. -/
theorem insertAfterFmt_length (s : List Char) (seen : Bool)
    (ls : List (List Char)) :
    (SubtitleProcessor.insertAfterFmt s seen ls).length = ls.length ∨
      (SubtitleProcessor.insertAfterFmt s seen ls).length = ls.length + 1 := by
  induction ls generalizing seen with
  | nil => left; rfl
  | cons l ls ih =>
    simp only [SubtitleProcessor.insertAfterFmt]
    split
    · right; simp
    · rcases ih (seen || isV4HeaderLine l) with h | h
      · left; simp [h]
      · right; simp [h]

/-- C10: for every style config and every parsed document, the output of the
styling pass has either exactly as many lines as the input or exactly one line
more, the latter exactly when the fallback insertion after a Format line runs;
no line is ever dropped from the count. -/
theorem c10_line_count (cfg : StyleConfig) (ls : List (List Char)) :
    (SubtitleProcessor.apply_styling_lines cfg ls).length = ls.length ∨
      (SubtitleProcessor.apply_styling_lines cfg ls).length = ls.length + 1 := by
  simp only [SubtitleProcessor.apply_styling_lines]
  split
  · have h := insertAfterFmt_length
      (SubtitleProcessor.create_ass_style_line cfg (chars "Default")) false
      (SubtitleProcessor.processLoop cfg initState ls).2
    rw [processLoop_out_length] at h
    exact h
  · left
    exact processLoop_out_length cfg initState ls

/-- A step that does not end with the replaced flag set passes its line
through. -/
theorem stepLine_out_eq (cfg : StyleConfig) (st : LoopState) (l : List Char)
    (h : (SubtitleProcessor.stepLine cfg st l).1.replaced = false) :
    (SubtitleProcessor.stepLine cfg st l).2 = [l] := by
  revert h
  simp only [SubtitleProcessor.stepLine]
  split_ifs <;> simp_all

/-- A scan that never sets the replaced flag passes every line through. -/
theorem processLoop_not_replaced (cfg : StyleConfig) (st : LoopState)
    (ls : List (List Char))
    (h : (SubtitleProcessor.processLoop cfg st ls).1.replaced = false) :
    (SubtitleProcessor.processLoop cfg st ls).2 = ls := by
  induction ls generalizing st with
  | nil => rfl
  | cons l ls ih =>
    rw [processLoop_cons] at h ⊢
    simp only at h
    have hstep : (SubtitleProcessor.stepLine cfg st l).1.replaced = false :=
      processLoop_replaced_mono cfg _ ls h
    simp [stepLine_out_eq cfg st l hstep, ih _ h]

/-- Executable form of: the scanned prefix contains no Format line that is
preceded by a header line (with the flag seeding whether a header was already
seen). -/
def noEarlierInsertPoint (seen : Bool) : List (List Char) → Bool
  | [] => true
  | l :: ls =>
    if seen && isFormatLine l then false
    else noEarlierInsertPoint (seen || isV4HeaderLine l) ls

/-- The insertion pass inserts right after the first Format line that has a
header line before it. -/
theorem insertAfterFmt_exact (s f : List Char) (v : List (List Char))
    (hf : isFormatLine f = true) :
    ∀ (u : List (List Char)) (seen : Bool),
    noEarlierInsertPoint seen u = true →
    (seen || u.any isV4HeaderLine) = true →
    SubtitleProcessor.insertAfterFmt s seen (u ++ f :: v) = u ++ f :: s :: v := by
  intro u
  induction u with
  | nil =>
    intro seen hno hseen
    simp only [List.any_nil, Bool.or_false] at hseen
    simp [SubtitleProcessor.insertAfterFmt, hseen, hf]
  | cons a u ih =>
    intro seen hno hseen
    simp only [noEarlierInsertPoint] at hno
    by_cases hsa : (seen && isFormatLine a) = true
    · simp [hsa] at hno
    · have hsaf : (seen && isFormatLine a) = false := by
        revert hsa; cases h : (seen && isFormatLine a) <;> simp
      simp only [hsaf, Bool.false_eq_true, if_false] at hno
      have hseen2 : ((seen || isV4HeaderLine a) || u.any isV4HeaderLine) = true := by
        simp only [List.any_cons] at hseen
        rw [Bool.or_assoc]
        exact hseen
      simp only [List.cons_append, SubtitleProcessor.insertAfterFmt, hsaf,
        Bool.false_eq_true, if_false, List.append_eq]
      rw [ih (seen || isV4HeaderLine a) hno hseen2]

/-- C6 counterexample: in this document the section has a Format line and no
Style line whose name field is Default, so the claim requires the synthesized
line to be inserted right after the Format line with the Title style kept.
The code instead replaces the Title style line, because it contains the
substring Default, and inserts nothing. -/
theorem c6_counterexample :
    styleNameField (chars "Style: Title,Default,x") ≠ chars "Default" ∧
    SubtitleProcessor.apply_styling_from_config emptyStyleConfig
        (chars "[V4+ Styles]\nFormat: Name\nStyle: Title,Default,x") =
      chars "[V4+ Styles]\nFormat: Name\nStyle: Default,Arial,20,&H00FFFFFF,&H000000FF,&H00000000,&H80000000,0,0,0,0,100,100,0,0,1,2,0,2,10,10,10,1" ∧
    SubtitleProcessor.apply_styling_from_config emptyStyleConfig
        (chars "[V4+ Styles]\nFormat: Name\nStyle: Title,Default,x") ≠
      chars "[V4+ Styles]\nFormat: Name\nStyle: Default,Arial,20,&H00FFFFFF,&H000000FF,&H00000000,&H80000000,0,0,0,0,100,100,0,0,1,2,0,2,10,10,10,1\nStyle: Title,Default,x" := by
  refine ⟨by decide, by decide, by decide⟩

/-- C6 (amended): if the scan replaces nothing (no Style line containing the
substring Default inside the section) but finds a Format line inside the
section, the synthesized Default line is inserted immediately after the first
Format line of the document that is preceded by a header line; if the scan
replaces nothing and also finds no Format line inside the section, the line
list is returned unchanged as a silent no-op. -/
theorem c6_fallback_insertion :
    (∀ (cfg : StyleConfig) (u v : List (List Char)) (f : List Char),
        isFormatLine f = true →
        u.any isV4HeaderLine = true →
        noEarlierInsertPoint false u = true →
        (SubtitleProcessor.processLoop cfg initState (u ++ f :: v)).1.replaced = false →
        (SubtitleProcessor.processLoop cfg initState (u ++ f :: v)).1.fmtFound = true →
        SubtitleProcessor.apply_styling_lines cfg (u ++ f :: v) =
          u ++ f :: SubtitleProcessor.create_ass_style_line cfg (chars "Default") :: v) ∧
    (∀ (cfg : StyleConfig) (ls : List (List Char)),
        (SubtitleProcessor.processLoop cfg initState ls).1.replaced = false →
        (SubtitleProcessor.processLoop cfg initState ls).1.fmtFound = false →
        SubtitleProcessor.apply_styling_lines cfg ls = ls) := by
  constructor
  · intro cfg u v f hf hhdr hfirst hnr hff
    have hout := processLoop_not_replaced cfg initState (u ++ f :: v) hnr
    simp only [SubtitleProcessor.apply_styling_lines, hnr, hff, Bool.not_false,
      Bool.and_self, if_true, hout]
    exact insertAfterFmt_exact _ f v hf u false hfirst (by simpa using hhdr)
  · intro cfg ls hnr hff
    have hout := processLoop_not_replaced cfg initState ls hnr
    simp [SubtitleProcessor.apply_styling_lines, hnr, hff, hout]

/-- C6 witness: the first part of the amended theorem applied to a concrete
document whose section has a Format line and no Default style line. -/
theorem c6_witness :
    isFormatLine (chars "Format: Name") = true ∧
    ([chars "[V4+ Styles]"]).any isV4HeaderLine = true ∧
    noEarlierInsertPoint false [chars "[V4+ Styles]"] = true ∧
    (SubtitleProcessor.processLoop emptyStyleConfig initState
        ([chars "[V4+ Styles]"] ++ (chars "Format: Name") :: [chars "Style: Other"])).1.replaced = false ∧
    (SubtitleProcessor.processLoop emptyStyleConfig initState
        ([chars "[V4+ Styles]"] ++ (chars "Format: Name") :: [chars "Style: Other"])).1.fmtFound = true ∧
    SubtitleProcessor.apply_styling_lines emptyStyleConfig
        ([chars "[V4+ Styles]"] ++ (chars "Format: Name") :: [chars "Style: Other"]) =
      [chars "[V4+ Styles]"] ++ (chars "Format: Name") ::
        SubtitleProcessor.create_ass_style_line emptyStyleConfig (chars "Default") ::
          [chars "Style: Other"] :=
  ⟨by decide, by decide, by decide, by decide, by decide,
    c6_fallback_insertion.1 emptyStyleConfig [chars "[V4+ Styles]"]
      [chars "Style: Other"] (chars "Format: Name")
      (by decide) (by decide) (by decide) (by decide) (by decide)⟩

/-- A step that sets the replaced flag was taken inside the section on a Style
line containing the substring Default. -/
theorem stepLine_replaced_set (cfg : StyleConfig) (st : LoopState) (l : List Char)
    (h0 : st.replaced = false)
    (h : (SubtitleProcessor.stepLine cfg st l).1.replaced = true) :
    st.inV4 = true ∧ isStyleLine l = true ∧ hasDefaultSub l = true := by
  revert h
  simp only [SubtitleProcessor.stepLine]
  split_ifs <;> simp_all

/-- A step keeps the found-Format flag once set. -/
theorem stepLine_fmtFound_keep (cfg : StyleConfig) (st : LoopState) (l : List Char)
    (h : st.fmtFound = true) :
    (SubtitleProcessor.stepLine cfg st l).1.fmtFound = true := by
  simp only [SubtitleProcessor.stepLine]
  split_ifs <;> simp_all

/-- The found-Format flag never goes from set to clear in one step. -/
theorem stepLine_fmtFound_mono (cfg : StyleConfig) (st : LoopState) (l : List Char)
    (h : (SubtitleProcessor.stepLine cfg st l).1.fmtFound = false) :
    st.fmtFound = false := by
  by_contra hc
  have hb : st.fmtFound = true := by revert hc; cases st.fmtFound <;> simp
  simp [stepLine_fmtFound_keep cfg st l hb] at h

/-- The found-Format flag never goes from set to clear over the loop. -/
theorem processLoop_fmtFound_mono (cfg : StyleConfig) (st : LoopState)
    (ls : List (List Char))
    (h : (SubtitleProcessor.processLoop cfg st ls).1.fmtFound = false) :
    st.fmtFound = false := by
  induction ls generalizing st with
  | nil => exact h
  | cons l ls ih =>
    rw [processLoop_cons] at h
    exact stepLine_fmtFound_mono cfg st l (ih _ h)

/-- A step that sets the found-Format flag was taken inside the section on a
Format line. -/
theorem stepLine_fmt_set (cfg : StyleConfig) (st : LoopState) (l : List Char)
    (h0 : st.fmtFound = false)
    (h : (SubtitleProcessor.stepLine cfg st l).1.fmtFound = true) :
    st.inV4 = true ∧ isFormatLine l = true := by
  revert h
  simp only [SubtitleProcessor.stepLine]
  split_ifs <;> simp_all

/-- A run that ends with the replaced flag set decomposes at the first line
that caused the replacement: a prefix scanned without replacing, ending inside
the section, followed by a Style line containing Default. -/
theorem replacement_decomp (cfg : StyleConfig) (st : LoopState)
    (ls : List (List Char)) (h0 : st.replaced = false)
    (h1 : (SubtitleProcessor.processLoop cfg st ls).1.replaced = true) :
    ∃ u l v, ls = u ++ l :: v ∧
      (SubtitleProcessor.processLoop cfg st u).1.replaced = false ∧
      (SubtitleProcessor.processLoop cfg st u).1.inV4 = true ∧
      isStyleLine l = true ∧ hasDefaultSub l = true := by
  induction ls generalizing st with
  | nil => rw [show SubtitleProcessor.processLoop cfg st [] = (st, []) from rfl] at h1; simp_all
  | cons l ls ih =>
    by_cases hs : (SubtitleProcessor.stepLine cfg st l).1.replaced = true
    · obtain ⟨hv, hsty, hdef⟩ := stepLine_replaced_set cfg st l h0 hs
      exact ⟨[], l, ls, rfl, h0, hv, hsty, hdef⟩
    · have hsf : (SubtitleProcessor.stepLine cfg st l).1.replaced = false := by
        revert hs; cases (SubtitleProcessor.stepLine cfg st l).1.replaced <;> simp
      rw [processLoop_cons] at h1
      simp only at h1
      obtain ⟨u, l2, v, hls, hru, hvu, hsty, hdef⟩ := ih _ hsf h1
      refine ⟨l :: u, l2, v, by rw [hls]; simp, ?_, ?_, hsty, hdef⟩
      · rw [processLoop_cons]; exact hru
      · rw [processLoop_cons]; exact hvu

/-- A run that ends with the found-Format flag set decomposes at the first
line that set it: a prefix scanned without finding a Format line, ending
inside the section, followed by a Format line. -/
theorem fmt_decomp (cfg : StyleConfig) (st : LoopState)
    (ls : List (List Char)) (h0 : st.fmtFound = false)
    (h1 : (SubtitleProcessor.processLoop cfg st ls).1.fmtFound = true) :
    ∃ u f v, ls = u ++ f :: v ∧
      (SubtitleProcessor.processLoop cfg st u).1.fmtFound = false ∧
      (SubtitleProcessor.processLoop cfg st u).1.inV4 = true ∧
      isFormatLine f = true := by
  induction ls generalizing st with
  | nil => rw [show SubtitleProcessor.processLoop cfg st [] = (st, []) from rfl] at h1; simp_all
  | cons l ls ih =>
    by_cases hs : (SubtitleProcessor.stepLine cfg st l).1.fmtFound = true
    · obtain ⟨hv, hfmt⟩ := stepLine_fmt_set cfg st l h0 hs
      exact ⟨[], l, ls, rfl, h0, hv, hfmt⟩
    · have hsf : (SubtitleProcessor.stepLine cfg st l).1.fmtFound = false := by
        revert hs; cases (SubtitleProcessor.stepLine cfg st l).1.fmtFound <;> simp
      rw [processLoop_cons] at h1
      simp only at h1
      obtain ⟨u, f, v, hls, hfu, hvu, hfmt⟩ := ih _ hsf h1
      refine ⟨l :: u, f, v, by rw [hls]; simp, ?_, ?_, hfmt⟩
      · rw [processLoop_cons]; exact hfu
      · rw [processLoop_cons]; exact hvu

/-- A scan that starts outside the section and ends inside it passed a header
line. -/
theorem header_of_inV4 (cfg : StyleConfig) (st : LoopState)
    (u : List (List Char)) (h3 : st.inV4 = false)
    (h : (SubtitleProcessor.processLoop cfg st u).1.inV4 = true) :
    u.any isV4HeaderLine = true := by
  by_contra hc
  have hall : ∀ l ∈ u, isV4HeaderLine l = false := by
    intro l hl
    by_contra hl2
    exact hc (List.any_eq_true.mpr ⟨l, hl,
      by revert hl2; cases isV4HeaderLine l <;> simp⟩)
  rw [processLoop_no_header cfg st u h3 hall] at h
  rw [h3] at h
  exact Bool.false_ne_true h

/-- Key positional lemma: in a document part with at most one header line, if
the scan of that part finds no Format line inside the section yet ends inside
the section, then the part contains no Format line preceded by a header line,
so the insertion pass will not fire anywhere in it. -/
theorem scan_noEarlier (cfg : StyleConfig) :
    ∀ (u : List (List Char)) (st : LoopState) (seen : Bool),
    seen = st.inV4 →
    st.fmtFound = false →
    (SubtitleProcessor.processLoop cfg st u).1.fmtFound = false →
    (SubtitleProcessor.processLoop cfg st u).1.inV4 = true →
    (seen = true → u.countP isV4HeaderLine = 0) →
    (seen = false → u.countP isV4HeaderLine ≤ 1) →
    noEarlierInsertPoint seen u = true := by
  intro u
  induction u with
  | nil => intro st seen _ _ _ _ _ _; rfl
  | cons a u ih =>
    intro st seen hsv hf0 hffin hvfin hc1 hc0
    rw [processLoop_cons] at hffin hvfin
    simp only at hffin hvfin
    have hstf : (SubtitleProcessor.stepLine cfg st a).1.fmtFound = false :=
      processLoop_fmtFound_mono cfg _ u hffin
    by_cases h1 : isV4HeaderLine a = true
    · have hcnt : (a :: u).countP isV4HeaderLine = u.countP isV4HeaderLine + 1 :=
        List.countP_cons_of_pos _ _ h1
      have hseenf : seen = false := by
        cases hse : seen with
        | false => rfl
        | true => exact absurd (hc1 hse) (by rw [hcnt]; omega)
      have hstep : SubtitleProcessor.stepLine cfg st a = ({ st with inV4 := true }, [a]) := by
        simp [SubtitleProcessor.stepLine, h1]
      have hcu : u.countP isV4HeaderLine = 0 := by
        have := hc0 hseenf
        rw [hcnt] at this
        omega
      simp only [noEarlierInsertPoint, hseenf, Bool.false_and, Bool.false_eq_true,
        if_false, Bool.false_or, h1]
      rw [hstep] at hffin hvfin hstf
      exact ih _ true rfl (by rw [show ({ st with inV4 := true } : LoopState).fmtFound = st.fmtFound from rfl]; exact hf0)
        hffin hvfin (fun _ => hcu) (fun hx => by rw [hcu]; omega)
    · have h1f : isV4HeaderLine a = false := by
        revert h1; cases isV4HeaderLine a <;> simp
      have hcnt : (a :: u).countP isV4HeaderLine = u.countP isV4HeaderLine :=
        List.countP_cons_of_neg _ _ (by simp [h1f])
      cases hse : seen with
      | true =>
        have hstv : st.inV4 = true := by rw [← hsv, hse]
        have hcu : u.countP isV4HeaderLine = 0 := by
          have := hc1 hse
          rw [hcnt] at this
          exact this
        by_cases h2 : isExitLine a = true
        · exfalso
          have hstep : SubtitleProcessor.stepLine cfg st a =
              ({ st with inV4 := false }, [a]) := by
            simp [SubtitleProcessor.stepLine, h1f, h2]
          have hall : ∀ l ∈ u, isV4HeaderLine l = false := by
            intro l hl
            have := List.countP_eq_zero.mp hcu l hl
            revert this; cases isV4HeaderLine l <;> simp
          rw [hstep] at hvfin
          rw [processLoop_no_header cfg _ u rfl hall] at hvfin
          exact Bool.false_ne_true hvfin
        · have h2f : isExitLine a = false := by
            revert h2; cases isExitLine a <;> simp
          have hfa : isFormatLine a = false := by
            by_contra hfa1
            have hfa2 : isFormatLine a = true := by
              revert hfa1; cases isFormatLine a <;> simp
            rw [stepLine_fmt cfg st a hstv hfa2] at hstf
            simp at hstf
          obtain ⟨hinv, x, hx⟩ := stepLine_one_out cfg st a h1f h2f
          simp only [noEarlierInsertPoint, hse, hfa, Bool.and_false, Bool.false_eq_true,
            if_false, Bool.true_or]
          exact ih _ true (by rw [hinv, hstv]) hstf hffin hvfin
            (fun _ => hcu) (fun hx2 => by rw [hcu]; omega)
      | false =>
        have hstv : st.inV4 = false := by rw [← hsv, hse]
        have hstep : SubtitleProcessor.stepLine cfg st a = (st, [a]) := by
          by_cases h2 : isExitLine a = true
          · simp only [SubtitleProcessor.stepLine, h1f, Bool.false_eq_true, if_false, h2,
              if_true, loopState_eta_inV4 st hstv, hstv]
          · have h2f : isExitLine a = false := by
              revert h2; cases isExitLine a <;> simp
            exact stepLine_outside cfg st a h1f h2f hstv
        rw [hstep] at hffin hvfin
        simp only [noEarlierInsertPoint, hse, Bool.false_and, Bool.false_eq_true,
          if_false, Bool.false_or, h1f]
        exact ih st false (by rw [hstv]) hf0 hffin hvfin
          (fun hx => absurd hx Bool.false_ne_true) (fun _ => by rw [← hcnt]; exact hc0 hse)

/-- Shape of a run that performs the fallback insertion, on a document part
with at most one header line: the document splits at the first in-section
Format line and the synthesized line lands right after it. -/
theorem insertShape (cfg : StyleConfig) (ls : List (List Char))
    (hnr : (SubtitleProcessor.processLoop cfg initState ls).1.replaced = false)
    (hff : (SubtitleProcessor.processLoop cfg initState ls).1.fmtFound = true)
    (hone : ls.countP isV4HeaderLine ≤ 1) :
    ∃ u f v, ls = u ++ f :: v ∧ isFormatLine f = true ∧
      (SubtitleProcessor.processLoop cfg initState u).1.inV4 = true ∧
      (SubtitleProcessor.processLoop cfg initState u).1.replaced = false ∧
      SubtitleProcessor.apply_styling_lines cfg ls =
        u ++ f :: SubtitleProcessor.create_ass_style_line cfg (chars "Default") :: v := by
  obtain ⟨u, f, v, hls, hfu, hvu, hfmt⟩ := fmt_decomp cfg initState ls rfl hff
  subst hls
  have hcu : u.countP isV4HeaderLine ≤ 1 := by
    rw [List.countP_append] at hone
    omega
  have hnoE : noEarlierInsertPoint false u = true :=
    scan_noEarlier cfg u initState false rfl rfl hfu hvu
      (fun hx => absurd hx Bool.false_ne_true) (fun _ => hcu)
  have hany : u.any isV4HeaderLine = true :=
    header_of_inV4 cfg initState u rfl hvu
  have hru : (SubtitleProcessor.processLoop cfg initState u).1.replaced = false := by
    rw [processLoop_append] at hnr
    simp only at hnr
    exact processLoop_replaced_mono cfg _ (f :: v) hnr
  refine ⟨u, f, v, rfl, hfmt, hvu, hru, ?_⟩
  have hout := processLoop_not_replaced cfg initState (u ++ f :: v) hnr
  simp only [SubtitleProcessor.apply_styling_lines, hnr, hff, Bool.not_false,
    Bool.and_self, if_true, hout]
  exact insertAfterFmt_exact _ f v hfmt u false hnoE (by simpa using hany)

/-- Shape of a run on a document whose section Format line is directly
followed by the synthesized Default line: the line after the Format line is
replaced by itself and nothing else changes. -/
theorem applyAfterInsert (cfg : StyleConfig) (u v : List (List Char)) (f : List Char)
    (hvu : (SubtitleProcessor.processLoop cfg initState u).1.inV4 = true)
    (hru : (SubtitleProcessor.processLoop cfg initState u).1.replaced = false)
    (hf : isFormatLine f = true) :
    SubtitleProcessor.apply_styling_lines cfg
        (u ++ f :: SubtitleProcessor.create_ass_style_line cfg (chars "Default") :: v) =
      (SubtitleProcessor.processLoop cfg initState u).2 ++
        f :: SubtitleProcessor.create_ass_style_line cfg (chars "Default") :: v := by
  unfold SubtitleProcessor.apply_styling_lines
  rw [processLoop_append cfg initState u, processLoop_cons,
    stepLine_fmt cfg _ f hvu hf, processLoop_cons,
    stepLine_match cfg _ _ (by rw [show ({ (SubtitleProcessor.processLoop cfg initState u).1 with fmtFound := true } : LoopState).inV4 = (SubtitleProcessor.processLoop cfg initState u).1.inV4 from rfl]; exact hvu)
      (by rw [show ({ (SubtitleProcessor.processLoop cfg initState u).1 with fmtFound := true } : LoopState).replaced = (SubtitleProcessor.processLoop cfg initState u).1.replaced from rfl]; exact hru)
      (synthesized_isStyle cfg) (synthesized_hasDefault cfg)]
  have hrest := processLoop_replaced cfg
    ({ { (SubtitleProcessor.processLoop cfg initState u).1 with fmtFound := true } with
        replaced := true } : LoopState) v rfl
  simp [hrest.1, hrest.2]

/-- Idempotence of the styling pass at the line level, for documents with at
most one header line. -/
theorem apply_styling_lines_idem (cfg : StyleConfig) (ls : List (List Char))
    (hone : ls.countP isV4HeaderLine ≤ 1) :
    SubtitleProcessor.apply_styling_lines cfg
        (SubtitleProcessor.apply_styling_lines cfg ls) =
      SubtitleProcessor.apply_styling_lines cfg ls := by
  by_cases hrep : (SubtitleProcessor.processLoop cfg initState ls).1.replaced = true
  · obtain ⟨u, l, v, hls, hru, hvu, hsty, hdef⟩ :=
      replacement_decomp cfg initState ls rfl hrep
    subst hls
    have hu2 : (SubtitleProcessor.processLoop cfg initState u).2 = u :=
      processLoop_not_replaced cfg initState u hru
    have h1 := replaceShape cfg u v l hvu hru hsty hdef
    rw [hu2] at h1
    rw [h1]
    have h2 := replaceShape cfg u v
      (SubtitleProcessor.create_ass_style_line cfg (chars "Default"))
      hvu hru (synthesized_isStyle cfg) (synthesized_hasDefault cfg)
    rw [hu2] at h2
    exact h2
  · have hrepf : (SubtitleProcessor.processLoop cfg initState ls).1.replaced = false := by
      revert hrep; cases (SubtitleProcessor.processLoop cfg initState ls).1.replaced <;> simp
    by_cases hff : (SubtitleProcessor.processLoop cfg initState ls).1.fmtFound = true
    · obtain ⟨u, f, v, hls, hfmt, hvu, hru, hout⟩ := insertShape cfg ls hrepf hff hone
      rw [hout]
      have h2 := applyAfterInsert cfg u v f hvu hru hfmt
      rw [processLoop_not_replaced cfg initState u hru] at h2
      exact h2
    · have hfff : (SubtitleProcessor.processLoop cfg initState ls).1.fmtFound = false := by
        revert hff; cases (SubtitleProcessor.processLoop cfg initState ls).1.fmtFound <;> simp
      have hid : SubtitleProcessor.apply_styling_lines cfg ls = ls := by
        have hout := processLoop_not_replaced cfg initState ls hrepf
        simp [SubtitleProcessor.apply_styling_lines, hrepf, hfff, hout]
      rw [hid]
      exact hid

/-- A line with no newline character. -/
def hasNoNewlineL (l : List Char) : Bool := l.all (fun c => c ≠ '\n')

/-- Splitting a newline-free line yields just that line. -/
theorem splitLinesL_no_newline (l : List Char) (h : hasNoNewlineL l = true) :
    splitLinesL l = [l] := by
  induction l with
  | nil => rfl
  | cons c cs ih =>
    simp only [hasNoNewlineL, List.all_cons, Bool.and_eq_true, decide_eq_true_eq] at h
    have hih := ih h.2
    simp [splitLinesL, h.1, hih]

/-- Splitting a newline-free line followed by a newline and a rest gives the
line and then the split of the rest. -/
theorem splitLinesL_line_append (l t : List Char) (h : hasNoNewlineL l = true) :
    splitLinesL (l ++ '\n' :: t) = l :: splitLinesL t := by
  induction l with
  | nil => simp [splitLinesL]
  | cons c cs ih =>
    simp only [hasNoNewlineL, List.all_cons, Bool.and_eq_true, decide_eq_true_eq] at h
    have hih := ih h.2
    simp [splitLinesL, h.1, hih]

/-- Splitting the join of a nonempty list of newline-free lines restores the
list. -/
theorem split_of_join (ls : List (List Char)) (hne : ls ≠ [])
    (h : ∀ l ∈ ls, hasNoNewlineL l = true) :
    splitLinesL (joinLinesL ls) = ls := by
  induction ls with
  | nil => exact absurd rfl hne
  | cons l ls ih =>
    cases ls with
    | nil => exact splitLinesL_no_newline l (h l (by simp))
    | cons l2 ls2 =>
      rw [joinLinesL_cons l (l2 :: ls2) (by simp)]
      rw [splitLinesL_line_append l _ (h l (by simp))]
      rw [ih (by simp) (fun x hx => h x (by simp [hx]))]

/-- Every piece of a newline split is newline-free. -/
theorem split_pieces_no_newline (s : List Char) :
    ∀ l ∈ splitLinesL s, hasNoNewlineL l = true := by
  induction s with
  | nil => intro l hl; simp [splitLinesL] at hl; simp [hl, hasNoNewlineL]
  | cons c cs ih =>
    intro l hl
    by_cases h : c = '\n'
    · subst h
      simp only [splitLinesL, if_pos rfl] at hl
      rcases List.mem_cons.mp hl with h2 | h2
      · simp [h2, hasNoNewlineL]
      · exact ih l h2
    · simp only [splitLinesL, h, if_false] at hl
      rcases List.mem_cons.mp hl with h2 | h2
      · subst h2
        cases hr : splitLinesL cs with
        | nil => exact absurd hr (splitLinesL_ne_nil cs)
        | cons a as =>
          simp only [List.headD_cons, hasNoNewlineL, List.all_cons,
            Bool.and_eq_true, decide_eq_true_eq]
          refine ⟨h, ?_⟩
          have := ih a (by rw [hr]; simp)
          simpa [hasNoNewlineL] using this
      · cases hr : splitLinesL cs with
        | nil => exact absurd hr (splitLinesL_ne_nil cs)
        | cons a as =>
          rw [hr] at h2
          exact ih l (by rw [hr]; exact List.mem_cons_of_mem a (by simpa using h2))

/-- Every line a step emits is the input line or the synthesized line. -/
theorem stepLine_mem (cfg : StyleConfig) (st : LoopState) (a l : List Char)
    (h : l ∈ (SubtitleProcessor.stepLine cfg st a).2) :
    l = a ∨ l = SubtitleProcessor.create_ass_style_line cfg (chars "Default") := by
  revert h
  simp only [SubtitleProcessor.stepLine]
  split_ifs <;> simp_all

/-- Every line the scan emits is an input line or the synthesized line. -/
theorem processLoop_mem (cfg : StyleConfig) (st : LoopState)
    (ls : List (List Char)) (l : List Char)
    (h : l ∈ (SubtitleProcessor.processLoop cfg st ls).2) :
    l ∈ ls ∨ l = SubtitleProcessor.create_ass_style_line cfg (chars "Default") := by
  induction ls generalizing st with
  | nil => simp [SubtitleProcessor.processLoop] at h
  | cons a as ih =>
    rw [processLoop_cons] at h
    simp only [List.mem_append] at h
    rcases h with h | h
    · rcases stepLine_mem cfg st a l h with h2 | h2
      · left; simp [h2]
      · right; exact h2
    · rcases ih _ h with h2 | h2
      · left; simp [h2]
      · right; exact h2

/-- Every line the insertion pass emits is an input line or the inserted
line. -/
theorem insertAfterFmt_mem (s : List Char) (seen : Bool)
    (ls : List (List Char)) (l : List Char)
    (h : l ∈ SubtitleProcessor.insertAfterFmt s seen ls) :
    l ∈ ls ∨ l = s := by
  induction ls generalizing seen with
  | nil => simp [SubtitleProcessor.insertAfterFmt] at h
  | cons a as ih =>
    simp only [SubtitleProcessor.insertAfterFmt] at h
    by_cases hc : (seen && isFormatLine a) = true
    · rw [if_pos hc] at h
      rcases List.mem_cons.mp h with h2 | h2
      · left; simp [h2]
      rcases List.mem_cons.mp h2 with h3 | h3
      · right; exact h3
      · left; simp [h3]
    · rw [if_neg hc] at h
      rcases List.mem_cons.mp h with h2 | h2
      · left; simp [h2]
      · rcases ih _ h2 with h3 | h3
        · left; simp [h3]
        · right; exact h3

/-- Every output line of the styling pass is an input line or the synthesized
line. -/
theorem apply_styling_lines_mem (cfg : StyleConfig) (ls : List (List Char))
    (l : List Char) (h : l ∈ SubtitleProcessor.apply_styling_lines cfg ls) :
    l ∈ ls ∨ l = SubtitleProcessor.create_ass_style_line cfg (chars "Default") := by
  revert h
  simp only [SubtitleProcessor.apply_styling_lines]
  split
  · intro h
    rcases insertAfterFmt_mem _ false _ l h with h2 | h2
    · exact processLoop_mem cfg initState ls l h2
    · right; exact h2
  · intro h
    exact processLoop_mem cfg initState ls l h

/-- The styling pass never returns an empty line list on a split document. -/
theorem apply_styling_lines_ne_nil (cfg : StyleConfig) (content : List Char) :
    SubtitleProcessor.apply_styling_lines cfg (splitLinesL content) ≠ [] := by
  intro hc
  have hlen := congrArg List.length hc
  simp only [List.length_nil] at hlen
  have hsp : (splitLinesL content).length ≠ 0 := by
    intro h0
    exact splitLinesL_ne_nil content (List.length_eq_zero.mp h0)
  revert hlen
  simp only [SubtitleProcessor.apply_styling_lines]
  split
  · rcases insertAfterFmt_length
      (SubtitleProcessor.create_ass_style_line cfg (chars "Default")) false
      (SubtitleProcessor.processLoop cfg initState (splitLinesL content)).2 with h | h
    · rw [h, processLoop_out_length]; exact hsp
    · rw [h, processLoop_out_length]; omega
  · rw [processLoop_out_length]; exact hsp

/-- A style config whose font name value contains a newline character, as a
JSON string value may. -/
def newlineConfig : StyleConfig := { font_name := some (chars "A\nB") }

/-- C5 counterexample: the code is not idempotent for every document and
config.  With a config value containing a newline, the first run writes a
style line spanning two physical lines; the second run splits it at the
newline, replaces only its first physical line by the full synthesized line
again, and keeps the residue line, so the content grows. -/
theorem c5_counterexample :
    SubtitleProcessor.apply_styling_from_config newlineConfig
        (SubtitleProcessor.apply_styling_from_config newlineConfig
          (chars "[V4+ Styles]\nStyle: Default")) ≠
      SubtitleProcessor.apply_styling_from_config newlineConfig
        (chars "[V4+ Styles]\nStyle: Default") := by
  decide

/-- C5 (amended): the styling pass is idempotent on its second application
provided the synthesized style line contains no newline character (that is, no
config value smuggles in a line break) and the document contains at most one
line that strips to the section header. -/
theorem c5_second_application_identity (cfg : StyleConfig) (content : List Char)
    (hnl : hasNoNewlineL
      (SubtitleProcessor.create_ass_style_line cfg (chars "Default")) = true)
    (hone : (splitLinesL content).countP isV4HeaderLine ≤ 1) :
    SubtitleProcessor.apply_styling_from_config cfg
        (SubtitleProcessor.apply_styling_from_config cfg content) =
      SubtitleProcessor.apply_styling_from_config cfg content := by
  unfold SubtitleProcessor.apply_styling_from_config
  have hmem : ∀ l ∈ SubtitleProcessor.apply_styling_lines cfg (splitLinesL content),
      hasNoNewlineL l = true := by
    intro l hl
    rcases apply_styling_lines_mem cfg (splitLinesL content) l hl with h | h
    · exact split_pieces_no_newline content l h
    · rw [h]; exact hnl
  rw [split_of_join _ (apply_styling_lines_ne_nil cfg content) hmem]
  rw [apply_styling_lines_idem cfg (splitLinesL content) hone]

/-- C5 witness: the amended theorem applied to a concrete document and the
empty config. -/
theorem c5_witness :
    hasNoNewlineL (SubtitleProcessor.create_ass_style_line emptyStyleConfig
      (chars "Default")) = true ∧
    (splitLinesL (chars "[V4+ Styles]\nStyle: Default")).countP isV4HeaderLine ≤ 1 ∧
    SubtitleProcessor.apply_styling_from_config emptyStyleConfig
        (SubtitleProcessor.apply_styling_from_config emptyStyleConfig
          (chars "[V4+ Styles]\nStyle: Default")) =
      SubtitleProcessor.apply_styling_from_config emptyStyleConfig
        (chars "[V4+ Styles]\nStyle: Default") :=
  ⟨by decide, by decide,
    c5_second_application_identity emptyStyleConfig
      (chars "[V4+ Styles]\nStyle: Default") (by decide) (by decide)⟩

/-- ASCII lowercase mapping, modelling Python str.lower on the ASCII range. -/
def toLowerC (c : Char) : Char :=
  if 65 ≤ c.toNat ∧ c.toNat ≤ 90 then Char.ofNat (c.toNat + 32) else c

/-- ASCII uppercase mapping, modelling Python str.upper on the ASCII range. -/
def toUpperC (c : Char) : Char :=
  if 97 ≤ c.toNat ∧ c.toNat ≤ 122 then Char.ofNat (c.toNat - 32) else c

/-- Round trip for a valid code point. -/
theorem charToNat_ofNat (n : Nat) (h : Nat.isValidChar n) :
    (Char.ofNat n).toNat = n := by
  unfold Char.ofNat
  rw [dif_pos h]
  rfl

/-- The uppercase map fixes exactly the dot occurrences. -/
theorem toUpperC_eq_dot (c : Char) : toUpperC c = '.' ↔ c = '.' := by
  constructor
  · intro h
    unfold toUpperC at h
    by_cases hr : 97 ≤ c.toNat ∧ c.toNat ≤ 122
    · rw [if_pos hr] at h
      have h2 := congrArg Char.toNat h
      rw [charToNat_ofNat _ (Or.inl (by omega))] at h2
      have h3 : ('.' : Char).toNat = 46 := by decide
      omega
    · rwa [if_neg hr] at h
  · intro h
    subst h
    unfold toUpperC
    rw [if_neg (by decide)]

/-- The uppercase map fixes exactly the slash occurrences. -/
theorem toUpperC_eq_slash (c : Char) : toUpperC c = '/' ↔ c = '/' := by
  constructor
  · intro h
    unfold toUpperC at h
    by_cases hr : 97 ≤ c.toNat ∧ c.toNat ≤ 122
    · rw [if_pos hr] at h
      have h2 := congrArg Char.toNat h
      rw [charToNat_ofNat _ (Or.inl (by omega))] at h2
      have h3 : ('/' : Char).toNat = 47 := by decide
      omega
    · rwa [if_neg hr] at h
  · intro h
    subst h
    unfold toUpperC
    rw [if_neg (by decide)]

/-- The lowercase map fixes exactly the dot occurrences. -/
theorem toLowerC_eq_dot (c : Char) : toLowerC c = '.' ↔ c = '.' := by
  constructor
  · intro h
    unfold toLowerC at h
    by_cases hr : 65 ≤ c.toNat ∧ c.toNat ≤ 90
    · rw [if_pos hr] at h
      have h2 := congrArg Char.toNat h
      rw [charToNat_ofNat _ (Or.inl (by omega))] at h2
      have h3 : ('.' : Char).toNat = 46 := by decide
      omega
    · rwa [if_neg hr] at h
  · intro h
    subst h
    unfold toLowerC
    rw [if_neg (by decide)]

/-- The lowercase map fixes exactly the slash occurrences. -/
theorem toLowerC_eq_slash (c : Char) : toLowerC c = '/' ↔ c = '/' := by
  constructor
  · intro h
    unfold toLowerC at h
    by_cases hr : 65 ≤ c.toNat ∧ c.toNat ≤ 90
    · rw [if_pos hr] at h
      have h2 := congrArg Char.toNat h
      rw [charToNat_ofNat _ (Or.inl (by omega))] at h2
      have h3 : ('/' : Char).toNat = 47 := by decide
      omega
    · rwa [if_neg hr] at h
  · intro h
    subst h
    unfold toLowerC
    rw [if_neg (by decide)]

/-- Lowercasing after uppercasing agrees with lowercasing after lowercasing,
character by character. -/
theorem toLowerC_toUpperC (c : Char) :
    toLowerC (toUpperC c) = toLowerC (toLowerC c) := by
  by_cases h : 97 ≤ c.toNat ∧ c.toNat ≤ 122
  · have hup : toUpperC c = Char.ofNat (c.toNat - 32) := by
      unfold toUpperC; rw [if_pos h]
    have hval : (Char.ofNat (c.toNat - 32)).toNat = c.toNat - 32 :=
      charToNat_ofNat _ (Or.inl (by omega))
    have hlow1 : toLowerC c = c := by
      unfold toLowerC; rw [if_neg (by omega)]
    rw [hup, hlow1, hlow1]
    unfold toLowerC
    rw [if_pos (by omega), hval]
    rw [show c.toNat - 32 + 32 = c.toNat from by omega]
    exact Char.ofNat_toNat c
  · have hup : toUpperC c = c := by
      unfold toUpperC; rw [if_neg h]
    rw [hup]
    by_cases h2 : 65 ≤ c.toNat ∧ c.toNat ≤ 90
    · have hlow : toLowerC c = Char.ofNat (c.toNat + 32) := by
        unfold toLowerC; rw [if_pos h2]
      have hval : (Char.ofNat (c.toNat + 32)).toNat = c.toNat + 32 :=
        charToNat_ofNat _ (Or.inl (by omega))
      rw [hlow]
      conv_lhs => rw [show Char.ofNat (c.toNat + 32) = toLowerC c from hlow.symm]
      rw [hlow]
      unfold toLowerC
      rw [if_neg (by omega)]
    · have hlow : toLowerC c = c := by
        unfold toLowerC; rw [if_neg h2]
      rw [hlow, hlow]

/-- Embedding of the extension part of os.path.splitext on posix paths: the
basename is the text after the last slash; leading dots of the basename do not
start an extension; the extension is the basename text from its last remaining
dot to the end, or empty when there is none. -/
def extOf (p : List Char) : List Char :=
  let base := (List.takeWhile (fun c => c ≠ '/') p.reverse).reverse
  let str := List.dropWhile (fun c => c = '.') base
  let r := str.reverse
  if r.any (fun c => c = '.') then
    '.' :: (List.takeWhile (fun c => c ≠ '.') r).reverse
  else []

/-- The registered processors, as in the source only the MKV processor. -/
inductive VideoProcessor where
  | mkv
deriving DecidableEq

namespace MKVProcessor

/-- Embedding of `MKVProcessor.get_supported_extensions`
(src/video/mkv_processor.py, lines 83 to 98). -/
def get_supported_extensions : List (List Char) := [chars ".mkv"]

end MKVProcessor

namespace VideoProcessorFactory

/-- The extension registry built by `_register_default_processors` and
`register_processor`: one entry per supported extension of each registered
processor, here the MKV processor only. -/
def processors : List (List Char × VideoProcessor) :=
  MKVProcessor.get_supported_extensions.map (fun e => (e, VideoProcessor.mkv))

/-- Dictionary lookup, modelling dict.get returning None when absent. -/
def lookupExt (key : List Char) : List (List Char × VideoProcessor) → Option VideoProcessor
  | [] => none
  | e :: rest => if key = e.1 then some e.2 else lookupExt key rest

/-- Embedding of `VideoProcessorFactory.get_processor`
(src/video/video_processor_factory.py, lines 204 to 208): lowercase the
extension of the path and look it up in the registry. -/
def get_processor (file_path : List Char) : Option VideoProcessor :=
  lookupExt (List.map toLowerC (extOf file_path)) processors

end VideoProcessorFactory

/-- The extension extraction commutes with any character map that fixes
exactly the dots and exactly the slashes. -/
theorem extOf_map (f : Char → Char)
    (hdot : ∀ c, f c = '.' ↔ c = '.')
    (hslash : ∀ c, f c = '/' ↔ c = '/')
    (p : List Char) :
    extOf (p.map f) = (extOf p).map f := by
  have hq : (fun c => decide (c ≠ '/')) ∘ f = fun c => decide (c ≠ '/') := by
    funext c
    simp only [Function.comp]
    exact decide_eq_decide.mpr (not_congr (hslash c))
  have hd : (fun c => decide (c = '.')) ∘ f = fun c => decide (c = '.') := by
    funext c
    simp only [Function.comp]
    exact decide_eq_decide.mpr (hdot c)
  have hne : (fun c => decide (c ≠ '.')) ∘ f = fun c => decide (c ≠ '.') := by
    funext c
    simp only [Function.comp]
    exact decide_eq_decide.mpr (not_congr (hdot c))
  unfold extOf
  simp only [← List.map_reverse, List.takeWhile_map, List.dropWhile_map,
    List.any_map, hq, hd, hne]
  split
  · simp [← List.map_reverse, List.takeWhile_map, hne, hdot]
    exact ((hdot '.').mpr rfl).symm
  · simp

/-- C8: the dispatcher matches on the lowercased extension of the path, so a path
with its letters uppercased resolves exactly as the lowercased path, and any
path whose lowercased extension is not a registered key resolves to no
processor. -/
theorem c8_extension_dispatch :
    (∀ p : List Char,
        VideoProcessorFactory.get_processor (p.map toUpperC) =
          VideoProcessorFactory.get_processor (p.map toLowerC)) ∧
    (∀ p : List Char,
        List.map toLowerC (extOf p) ≠ chars ".mkv" →
          VideoProcessorFactory.get_processor p = none) ∧
    VideoProcessorFactory.get_processor (chars "MOVIE.MKV") = some VideoProcessor.mkv ∧
    VideoProcessorFactory.get_processor (chars "movie.mkv") = some VideoProcessor.mkv ∧
    VideoProcessorFactory.get_processor (chars "movie.xyz") = none := by
  refine ⟨?_, ?_, by decide, by decide, by decide⟩
  · intro p
    unfold VideoProcessorFactory.get_processor
    rw [extOf_map toUpperC toUpperC_eq_dot toUpperC_eq_slash,
      extOf_map toLowerC toLowerC_eq_dot toLowerC_eq_slash,
      List.map_map, List.map_map]
    rw [show toLowerC ∘ toUpperC = toLowerC ∘ toLowerC from funext toLowerC_toUpperC]
  · intro p h
    simp only [VideoProcessorFactory.get_processor, VideoProcessorFactory.processors,
      MKVProcessor.get_supported_extensions, List.map_cons, List.map_nil,
      VideoProcessorFactory.lookupExt, if_neg h]

/-- C8 witness: an unregistered extension resolves to no processor. -/
theorem c8_witness :
    List.map toLowerC (extOf (chars "movie.xyz")) ≠ chars ".mkv" ∧
    VideoProcessorFactory.get_processor (chars "movie.xyz") = none :=
  ⟨by decide, c8_extension_dispatch.2.1 (chars "movie.xyz") (by decide)⟩

/-- Consume exactly n digit characters. -/
def matchNDigits : Nat → List Char → Option (List Char)
  | 0, s => some s
  | _ + 1, [] => none
  | n + 1, c :: cs => if c.isDigit then matchNDigits n cs else none

/-- Consume a literal character sequence. -/
def matchLit : List Char → List Char → Option (List Char)
  | [], s => some s
  | _ :: _, [] => none
  | p :: ps, c :: cs => if p = c then matchLit ps cs else none

/-- Consume one SRT timestamp: two digits, colon, two digits, colon, two
digits, comma, three digits. -/
def matchTimeStamp (s : List Char) : Option (List Char) :=
  (matchNDigits 2 s).bind fun s1 =>
  (matchLit (chars ":") s1).bind fun s2 =>
  (matchNDigits 2 s2).bind fun s3 =>
  (matchLit (chars ":") s3).bind fun s4 =>
  (matchNDigits 2 s4).bind fun s5 =>
  (matchLit (chars ",") s5).bind fun s6 =>
  matchNDigits 3 s6

/-- The SRT pattern of the source regex anchored at the current position: one
or more digits, a newline, a timestamp, the arrow, a timestamp.  The greedy
one-or-more digits run is equivalent to consuming the maximal digit run, since
a digit can never match the following newline. -/
def srtPatternAt : List Char → Bool
  | [] => false
  | c :: cs =>
    c.isDigit &&
      (match matchLit (chars "\n") (List.dropWhile Char.isDigit cs) with
       | none => false
       | some s1 =>
         ((matchTimeStamp s1).bind fun s2 =>
          (matchLit (chars " --> ") s2).bind fun s3 =>
          matchTimeStamp s3).isSome)

/-- Unanchored search of the SRT pattern, modelling re.search. -/
def srtSearch : List Char → Bool
  | [] => false
  | c :: cs => srtPatternAt (c :: cs) || srtSearch cs

namespace SubtitleProcessor

/-- Embedding of the content classification of
`SubtitleProcessor.detect_subtitle_format` (src/subtitle_processor.py, lines
220 to 247): ASS when the Script Info marker occurs anywhere, else VTT when
the stripped content starts with WEBVTT, else SRT when the numbered timestamp
pattern occurs anywhere, else unknown.  The surrounding file read, with its
exception path also returning unknown, is factored out. -/
def detect_subtitle_format (content : List Char) : String :=
  if containsSub (chars "[Script Info]") content then "ass"
  else if startsWithL (chars "WEBVTT") (trimL content) then "vtt"
  else if srtSearch content then "srt"
  else "unknown"

end SubtitleProcessor

/-- C7: the detector tries ASS, then VTT, then SRT, then unknown, in that
priority order; in particular content containing both the Script Info marker
and an SRT timestamp pattern is classified as ASS. -/
theorem c7_detect_priority (content : List Char) :
    (containsSub (chars "[Script Info]") content = true →
      SubtitleProcessor.detect_subtitle_format content = "ass") ∧
    (containsSub (chars "[Script Info]") content = false →
      startsWithL (chars "WEBVTT") (trimL content) = true →
      SubtitleProcessor.detect_subtitle_format content = "vtt") ∧
    (containsSub (chars "[Script Info]") content = false →
      startsWithL (chars "WEBVTT") (trimL content) = false →
      srtSearch content = true →
      SubtitleProcessor.detect_subtitle_format content = "srt") ∧
    (containsSub (chars "[Script Info]") content = false →
      startsWithL (chars "WEBVTT") (trimL content) = false →
      srtSearch content = false →
      SubtitleProcessor.detect_subtitle_format content = "unknown") ∧
    (containsSub (chars "[Script Info]") content = true →
      srtSearch content = true →
      SubtitleProcessor.detect_subtitle_format content = "ass") := by
  refine ⟨?_, ?_, ?_, ?_, ?_⟩ <;>
    intro h <;>
    simp [SubtitleProcessor.detect_subtitle_format, h]
  · intro h2; simp [h2]
  · intro h2 h3; simp [h2, h3]
  · intro h2 h3; simp [h2, h3]

/-- C7 witness: content containing both the Script Info marker and an SRT
timestamp block is classified as ASS. -/
theorem c7_witness :
    containsSub (chars "[Script Info]")
      (chars "[Script Info]\n1\n00:00:00,000 --> 00:00:01,000") = true ∧
    srtSearch (chars "[Script Info]\n1\n00:00:00,000 --> 00:00:01,000") = true ∧
    SubtitleProcessor.detect_subtitle_format
      (chars "[Script Info]\n1\n00:00:00,000 --> 00:00:01,000") = "ass" :=
  ⟨by decide, by decide,
    (c7_detect_priority (chars "[Script Info]\n1\n00:00:00,000 --> 00:00:01,000")).2.2.2.2
      (by decide) (by decide)⟩

/-- Outcome of reading and JSON-parsing the configuration file, the effectful
part that is factored out of the embedding of the loader: the file may be
missing, the JSON may be invalid, another read error may occur, or parsing
succeeds with an optional subtitle_style section. -/
inductive ConfigReadOutcome where
  | fileNotFound
  | jsonDecodeError
  | otherError
  | parsed (subtitle_style : Option StyleConfig)

namespace SubtitleProcessor

/-- Embedding of `SubtitleProcessor.load_style_config`
(src/subtitle_processor.py, lines 149 to 172): every failure of the read or
parse is caught inside the function, an error is logged, and the empty dict is
returned; on success the subtitle_style section is returned, or the empty dict
when the section is absent.  The first component is the returned dict, the
second records whether an error was logged.  Totality of this function is the
never-raises behaviour of the source: every outcome maps to a returned
value. -/
def load_style_config : ConfigReadOutcome → StyleConfig × Bool
  | ConfigReadOutcome.fileNotFound => (emptyStyleConfig, true)
  | ConfigReadOutcome.jsonDecodeError => (emptyStyleConfig, true)
  | ConfigReadOutcome.otherError => (emptyStyleConfig, true)
  | ConfigReadOutcome.parsed s => (s.getD emptyStyleConfig, false)

end SubtitleProcessor

/-- Python truthiness of the returned dict: a dict is truthy when nonempty. -/
def configTruthy (c : StyleConfig) : Bool :=
  c.font_name.isSome || c.font_size.isSome || c.primary_color.isSome ||
  c.secondary_color.isSome || c.outline_color.isSome || c.back_color.isSome ||
  c.bold.isSome || c.italic.isSome || c.outline.isSome || c.shadow.isSome ||
  c.alignment.isSome || c.margin_left.isSome || c.margin_right.isSome ||
  c.margin_vertical.isSome

/-- C9: when loading or parsing the style configuration fails (missing file or
invalid JSON), the loader logs the error and returns the empty dict, a falsy
value, to its immediate caller; the failure is a value of the total function,
never an exception escaping it. -/
theorem c9_load_failure_boolean (o : ConfigReadOutcome)
    (h : o = ConfigReadOutcome.fileNotFound ∨ o = ConfigReadOutcome.jsonDecodeError) :
    SubtitleProcessor.load_style_config o = (emptyStyleConfig, true) ∧
      configTruthy (SubtitleProcessor.load_style_config o).1 = false := by
  rcases h with h | h <;> subst h <;> exact ⟨rfl, rfl⟩

/-- C9 witness: the missing-file outcome. -/
theorem c9_witness :
    (ConfigReadOutcome.fileNotFound = ConfigReadOutcome.fileNotFound ∨
      ConfigReadOutcome.fileNotFound = ConfigReadOutcome.jsonDecodeError) ∧
    (SubtitleProcessor.load_style_config ConfigReadOutcome.fileNotFound =
        (emptyStyleConfig, true) ∧
      configTruthy
        (SubtitleProcessor.load_style_config ConfigReadOutcome.fileNotFound).1 = false) :=
  ⟨Or.inl rfl, c9_load_failure_boolean ConfigReadOutcome.fileNotFound (Or.inl rfl)⟩
